import Mathlib

/-
Verification of the vba-obfuscator source model and rewrite engine.

The Python sources (src/vba/model.py, src/vba/regex.py, src/vba/rng.py,
src/vba/parsing.py, src/vba/mutators/strings.py) are shallowly embedded
below.  Strings are modelled as lists of characters, Python object state
is passed explicitly, fallible code returns Option, and the regex based
scanners of regex.py are embedded as explicit character scanners that
follow the semantics of the concrete patterns used by the code.
-/

namespace VbaObf

/-! ## Character classes used by the regex patterns of regex.py -/

/-- A decimal digit, the character class d of the regex engine.  The class
written as backslash-W backslash-D in RE_IDENTIFIER_USE matches every
character that is a non word character or a non digit character; since all
digits are word characters, that union is exactly the complement of the
digits. -/
def isDigitChar (c : Char) : Bool := '0' ≤ c && c ≤ '9'

/-- Whitespace, the class backslash-s of the regex engine (ASCII inputs). -/
def isSpaceChar (c : Char) : Bool :=
  c = ' ' || c = '\t' || c = '\n' || c = '\x0b' || c = '\x0c' || c = '\r'

/-- Word characters, the class backslash-w of the regex engine (ASCII
inputs): letters, digits and the underscore. -/
def isWordChar (c : Char) : Bool :=
  ('a' ≤ c && c ≤ 'z') || ('A' ≤ c && c ≤ 'Z') || isDigitChar c || c = '_'

/-! ## Generic helpers for the store passing embedding -/

/-- Map a function receiving the element index over a list, starting the
index count at k.  Used to model in place mutation of the i-th object of a
Python list. -/
def mapWithIdx (f : Nat → α → α) : Nat → List α → List α
  | _, [] => []
  | k, a :: as => f k a :: mapWithIdx f (k + 1) as

theorem mapWithIdx_length (f : Nat → α → α) (k : Nat) (l : List α) :
    (mapWithIdx f k l).length = l.length := by
  induction l generalizing k with
  | nil => rfl
  | cons a as ih => simp [mapWithIdx, ih]

theorem mapWithIdx_getD (f : Nat → α → α) (k : Nat) (l : List α) (j : Nat) (d : α) :
    (mapWithIdx f k l).getD j d =
      if j < l.length then f (k + j) (l.getD j d) else d := by
  induction l generalizing k j with
  | nil => simp [mapWithIdx]
  | cons a as ih =>
    cases j with
    | zero => simp [mapWithIdx]
    | succ j =>
      simp only [mapWithIdx, List.getD_cons_succ, ih, List.length_cons]
      rcases Nat.lt_or_ge j as.length with h | h
      · rw [if_pos h, if_pos (by omega)]
        congr 1
        omega
      · rw [if_neg (by omega), if_neg (by omega)]

/-- Python slice index resolution for a sequence of the given length: a
negative index counts from the end, and results are clamped to the valid
range (Nat subtraction already clamps at zero). -/
def pyIdx (len : Nat) (i : Int) : Nat :=
  if i < 0 then len - (-i).toNat else min i.toNat len

/-- Python slicing s[:i]. -/
def pyTake (s : List Char) (i : Int) : List Char := s.take (pyIdx s.length i)

/-- Python slicing s[i:]. -/
def pyDrop (s : List Char) (i : Int) : List Char := s.drop (pyIdx s.length i)

/-! ## The String dataclass and the CodeLine class of model.py -/

/-- The String dataclass of model.py: a tracked string literal span of one
line.  Offsets are Python ints.  The codeLine back reference is implicit:
a literal lives inside the strings list of its line. -/
structure StrLit where
  value : List Char
  startIdx : Int
  endIdx : Int
  newString : Option (List Char)
deriving DecidableEq, Inhabited

/-- The CodeLineType enum of model.py. -/
inductive CodeLineType where
  | Default
  | MethodStart
  | MethodEnd
deriving DecidableEq, Inhabited

/-- The CodeLine class of model.py, without the intrusive prev and next
links (the linked structure is modelled separately for the claims that
need it; here a file is a list of lines in link order).  The method back
reference is the index of the owning Method, or none. -/
structure CodeLineM where
  line : List Char
  number : Int := -1
  method : Option Nat := none
  lineType : CodeLineType := CodeLineType.Default
  newLine : Option (List Char) := none
  strings : List StrLit := []
deriving DecidableEq, Inhabited

/-- The RE_STRINGS finditer of CodeLine.parseStrings: the pattern is a
double quote, then any run of non quote characters, then a double quote.
Scans left to right; an unmatched opening quote (no closing quote follows)
ends the scan since no further quote pair can exist.  The fuel only bounds
the recursion and is always supplied as the line length plus one, which
the scan can never exhaust. -/
def findStringsAux : Nat → Nat → List Char → List StrLit
  | 0, _, _ => []
  | _ + 1, _, [] => []
  | fuel + 1, pos, c :: rest =>
    if c = '"' then
      let before := rest.takeWhile (fun d => d ≠ '"')
      match rest.drop before.length with
      | [] => []
      | _ :: rest2 =>
        { value := '"' :: before ++ ['"'],
          startIdx := (pos : Int),
          endIdx := (pos : Int) + before.length + 2,
          newString := none } ::
          findStringsAux fuel (pos + before.length + 2) rest2
    else findStringsAux fuel (pos + 1) rest

/-- The RE_STRINGS finditer over a whole line. -/
def findStrings (pos : Nat) (s : List Char) : List StrLit :=
  findStringsAux (s.length + 1) pos s

/-- The CodeLine constructor of model.py: stores the text and parses the
tracked string literals from it. -/
def mkCodeLine (line : List Char) (number : Int := -1) (method : Option Nat := none)
    (lineType : CodeLineType := CodeLineType.Default) : CodeLineM :=
  { line := line, number := number, method := method, lineType := lineType,
    newLine := none, strings := findStrings 0 line }

/-- The exportLine property getter of CodeLine: the override if it is set
and truthy, else the original text.  An empty override string is falsy in
Python, so it falls back to the original line. -/
def exportLine (l : CodeLineM) : List Char :=
  match l.newLine with
  | some t => if t = [] then l.line else t
  | none => l.line

/-- CodeLine.replaceString of model.py: substitute the tracked span of the
literal at index i of the strings list with repl, update that literal's
span and newString, and shift every literal whose startIdx exceeds the
replaced literal's original endIdx by the length difference.  The
membership test of the following list is evaluated against the original
offsets, before the replaced literal is updated, exactly as in the source.
-/
def replaceString (l : CodeLineM) (i : Nat) (repl : List Char) : CodeLineM :=
  let st := l.strings.getD i default
  let origEnd := st.endIdx
  let diff : Int := (repl.length : Int) - (st.value.length : Int)
  let newText := pyTake (exportLine l) st.startIdx ++ repl ++ pyDrop (exportLine l) origEnd
  let strings := mapWithIdx (fun j s =>
    if j = i then
      let s' : StrLit :=
        { s with endIdx := s.startIdx + (repl.length : Int), newString := some repl }
      if s'.startIdx > origEnd then
        { s' with startIdx := s'.startIdx + diff, endIdx := s'.endIdx + diff }
      else s'
    else if s.startIdx > origEnd then
      { s with startIdx := s.startIdx + diff, endIdx := s.endIdx + diff }
    else s) 0 l.strings
  { l with newLine := some newText, strings := strings }

/-! ## StringSplitter of mutators/strings.py -/

/-- The chunkstring generator: slices string[i : i + length] for i in
range(0, len(string), length).  A zero step would raise ValueError in
Python; the zero case here returns no chunks and is never used (the source
always passes 8). -/
def chunkAux : Nat → List Char → Nat → Nat → List (List Char)
  | 0, _, _, _ => []
  | fuel + 1, s, len, i =>
    if 0 < len ∧ i < s.length then
      (s.drop i).take len :: chunkAux fuel s len (i + len)
    else []

/-- StringSplitter.chunkstring of mutators/strings.py (the fuel bounds the
number of produced chunks and can never be exhausted for a positive
width). -/
def chunkstring (s : List Char) (len : Nat) : List (List Char) :=
  chunkAux (s.length + 1) s len 0

/-- StringSplitter.process of mutators/strings.py: if the tracked value of
the literal at index i, quotes included, is longer than 8 characters, the
inner value (the value with its first and last character stripped) is cut
into chunks of 8, each chunk is requoted, the chunks are joined with the
concatenation operator, and the result replaces the literal through
CodeLine.replaceString; otherwise nothing happens. -/
def StringSplitter.process (l : CodeLineM) (i : Nat) : CodeLineM :=
  let st := l.strings.getD i default
  if st.value.length > 8 then
    let val := (st.value.drop 1).dropLast
    let newStrings :=
      List.intercalate (' ' :: '&' :: [' '])
        ((chunkstring val 8).map (fun chunk => '"' :: chunk ++ ['"']))
    replaceString l i newStrings
  else l

/-! ## The substitution passes of regex.py, embedded as scanners

Each function embeds one concrete re.subn call of the source with the
pattern instantiated at an identifier.  The embeddings assume the
substituted name is a nonempty identifier (no whitespace, no quotes), which
holds for every name the program ever substitutes; under that assumption
the backtracking of the concrete patterns collapses to the explicit
scans written here. -/

/-- One re.subn pass with RE_IDENTIFIER_USE and RE_IDENTIFIER_SUB from
regex.py.  The pattern is: a mandatory single character of the class
written backslash-W backslash-D (any non digit), then the name, then an
optional greedy single character of the same class.  Scanning is leftmost
and non overlapping; the replacement re-emits the captured boundary
characters around the new name, and an unmatched optional group
contributes nothing.  Returns the new text and the substitution count. -/
def identSubnAux (old new : List Char) : Nat → List Char → List Char × Nat
  | 0, _ => ([], 0)
  | _ + 1, [] => ([], 0)
  | fuel + 1, c :: rest =>
    if ¬ isDigitChar c ∧ old.isPrefixOf rest then
      match rest.drop old.length with
      | [] => (c :: new, 1)
      | d :: after' =>
        if ¬ isDigitChar d then
          let r := identSubnAux old new fuel after'
          (c :: (new ++ d :: r.1), r.2 + 1)
        else
          let r := identSubnAux old new fuel (d :: after')
          (c :: (new ++ r.1), r.2 + 1)
    else
      let r := identSubnAux old new fuel rest
      (c :: r.1, r.2)

/-- The full RE_IDENTIFIER_USE subn pass over a string, with enough fuel
for the whole scan. -/
def identSubn (old new s : List Char) : List Char × Nat :=
  identSubnAux old new (s.length + 1) s

/-- Count of the leading whitespace run of a string. -/
def wsRun : List Char → Nat
  | [] => 0
  | c :: r => if isSpaceChar c then wsRun r + 1 else 0

/-- One re.subn pass with RE_METHOD_CALLS and RE_METHOD_CALLS_SUB from
regex.py.  The pattern is: a captured run of whitespace that is either
anchored at the start of the string (possibly empty) or nonempty, then the
name, then an opening parenthesis.  Since the name starts with a non
whitespace character, a match can only place the name at the end of a
maximal whitespace run, or at position zero.  The replacement keeps the
captured whitespace and the parenthesis around the new name. -/
def methodCallsAux (name new : List Char) : Nat → List Char → List Char × Nat
  | 0, _ => ([], 0)
  | _ + 1, [] => ([], 0)
  | fuel + 1, c :: rest =>
    if isSpaceChar c then
      let k := wsRun (c :: rest)
      let tail := (c :: rest).drop k
      if (name ++ ['(']).isPrefixOf tail then
        let r := methodCallsAux name new fuel (tail.drop (name.length + 1))
        ((c :: rest).take k ++ new ++ '(' :: r.1, r.2 + 1)
      else
        let r := methodCallsAux name new fuel rest
        (c :: r.1, r.2)
    else
      let r := methodCallsAux name new fuel rest
      (c :: r.1, r.2)

/-- The full RE_METHOD_CALLS substitution: at position zero the anchored
alternative also matches with an empty whitespace run, so a name sitting
at the very start of the line is rewritten too; afterwards the generic
scan applies. -/
def methodCallsSub (name new : List Char) (s : List Char) : List Char × Nat :=
  if (name ++ ['(']).isPrefixOf s then
    let r := methodCallsAux name new (s.length + 1) (s.drop (name.length + 1))
    (new ++ '(' :: r.1, r.2 + 1)
  else methodCallsAux name new (s.length + 1) s

/-- One re.subn pass with RE_METHOD_REF and RE_METHOD_REF_SUB from
regex.py.  The pattern is anchored at both ends: optional leading
whitespace, the name, then a mandatory whitespace character followed by
the rest of the line.  At most one substitution can happen. -/
def methodRefSub (name new : List Char) (s : List Char) : List Char × Nat :=
  let k := wsRun s
  let t := s.drop k
  if name.isPrefixOf t then
    match t.drop name.length with
    | c :: rest => if isSpaceChar c then (s.take k ++ new ++ c :: rest, 1) else (s, 0)
    | [] => (s, 0)
  else (s, 0)

/-! ## The name generator of rng.py -/

/-- A key of the process wide NAMES dict of rng.py.  Python dict keys are
compared by value across types: the dict is keyed by (length, alphabet)
tuples, and the membership test the generator performs supplies a plain
string, which never equals a tuple. -/
inductive PyKey where
  | strK : List Char → PyKey
  | tupK : Nat → List Char → PyKey
deriving DecidableEq

/-- The NAMES dict of rng.py: keys to sets of issued names (a set is kept
as a duplicate free list in insertion order). -/
structure NamesState where
  entries : List (PyKey × List (List Char))
deriving DecidableEq

def dictGet (st : NamesState) (k : PyKey) : Option (List (List Char)) :=
  (st.entries.find? (fun e => e.1 = k)).map (fun e => e.2)

def dictSet (st : NamesState) (k : PyKey) (v : List (List Char)) : NamesState :=
  if (st.entries.find? (fun e => e.1 = k)).isSome then
    ⟨st.entries.map (fun e => if e.1 = k then (k, v) else e)⟩
  else ⟨st.entries ++ [(k, v)]⟩

def dictKeys (st : NamesState) : List PyKey := st.entries.map (fun e => e.1)

/-- Python set.add. -/
def setAdd (s : List (List Char)) (x : List Char) : List (List Char) :=
  if x ∈ s then s else s ++ [x]

/-- randomName of rng.py.  The random source is modelled as the list of
draws the sampling loop would produce, each draw being one candidate name
of the requested length over the alphabet; none is returned when the draws
run out, which models the otherwise endless loop (and, before the loop,
the capacity exception).  The membership test inside the loop is the
source's test: the candidate string is looked up among the keys of the
NAMES dict itself, not in the per key name set. -/
def randomName (length : Nat) (alphabet : List Char) (st : NamesState)
    (draws : List (List Char)) : Option (List Char × NamesState) :=
  let key := PyKey.tupK length alphabet
  let init : List (List Char) × NamesState :=
    match dictGet st key with
    | some ns => (ns, st)
    | none => ([], dictSet st key [])
  let names := init.1
  let st1 := init.2
  let MAX := alphabet.length ^ length
  if names.length ≥ MAX then none
  else
    let rec loop (st2 : NamesState) (names : List (List Char)) (key : PyKey) :
        List (List Char) → Option (List Char × NamesState)
      | [] => none
      | d :: ds =>
        if PyKey.strK d ∈ dictKeys st2 then loop st2 names key ds
        else some (d, dictSet st2 key (setAdd names d))
    loop st1 names key draws

/-! ## parseVariables of parsing.py -/

/-- A Variable of model.py. -/
structure MVar where
  name : List Char
  type : Option (List Char) := none
  newName : Option (List Char) := none
deriving DecidableEq, Inhabited

/-- The optional star size suffix of the type group of RE_VARIABLES:
one or more whitespace characters, a star, one or more whitespace
characters, one or more digits, all greedy.  Returns the consumed text and
the remainder on success. -/
def starSuffix (s : List Char) : Option (List Char × List Char) :=
  let ws1 := s.takeWhile isSpaceChar
  if ws1 = [] then none
  else
    match s.drop ws1.length with
    | '*' :: r2 =>
      let ws2 := r2.takeWhile isSpaceChar
      if ws2 = [] then none
      else
        let r3 := r2.drop ws2.length
        let ds := r3.takeWhile isDigitChar
        if ds = [] then none
        else some (ws1 ++ '*' :: ws2 ++ ds, r3.drop ds.length)
    | _ => none

/-- The optional declared type suffix of RE_VARIABLES: one whitespace,
the literal As, one whitespace, then the type group (a word run with an
optional star size suffix).  Returns the captured type group and the
remainder on success. -/
def asTypeSuffix (s : List Char) : Option (List Char × List Char) :=
  match s with
  | c :: r1 =>
    if isSpaceChar c ∧ ('A' :: ['s']).isPrefixOf r1 then
      match r1.drop 2 with
      | c2 :: r3 =>
        if isSpaceChar c2 then
          let ty := r3.takeWhile isWordChar
          if ty = [] then none
          else
            let r4 := r3.drop ty.length
            match starSuffix r4 with
            | some (star, r5) => some (ty ++ star, r5)
            | none => some (ty, r4)
        else none
      | [] => none
    else none
  | [] => none

/-- The RE_VARIABLES finditer of parseVariables: each match is a maximal
word run as the variable name, optionally followed by the declared type
suffix; scanning resumes after each match.  The fuel argument bounds the
scan and is always supplied as the input length plus one, which the scan
can never exhaust. -/
def findVarsAux : Nat → List Char → List MVar
  | 0, _ => []
  | _ + 1, [] => []
  | fuel + 1, c :: rest =>
    if isWordChar c then
      let nameRun := c :: rest.takeWhile isWordChar
      let after := rest.dropWhile isWordChar
      match asTypeSuffix after with
      | some (ty, rest2) => { name := nameRun, type := some ty } :: findVarsAux fuel rest2
      | none => { name := nameRun, type := none } :: findVarsAux fuel after
    else findVarsAux fuel rest

/-- parseVariables of parsing.py: find all variable matches, then the
sanity check: collect the distinct non None declared types; more than one
distinct type is an error; exactly one distinct type with more than one
variable propagates that type to every variable of the statement. -/
def parseVariables (s : List Char) : Option (List MVar) :=
  let vars := findVarsAux (s.length + 1) s
  let types := (vars.filterMap (fun v => v.type)).dedup
  if types.length > 1 then none
  else if types.length = 1 ∧ vars.length > 1 then
    some (vars.map (fun v => { v with type := some (types.getD 0 []) }))
  else some vars

/-! ## Method, Parameter and File of model.py, and the rename operations -/

/-- The ParameterType enum of model.py. -/
inductive PType where
  | Plain
  | Typed
  | ByRef
  | ByVal
deriving DecidableEq, Inhabited

/-- The Parameter dataclass of model.py. -/
structure MParam where
  var : MVar
  ptype : PType
deriving DecidableEq, Inhabited

/-- The Method class of model.py (the file back reference is implicit: a
method lives inside the methods list of its file). -/
structure MMethod where
  name : List Char
  newName : Option (List Char) := none
  mtype : List Char
  modifier : Option (List Char) := none
  returnType : Option (List Char) := none
  parameters : List MParam := []
  vars : List MVar := []
deriving DecidableEq, Inhabited

/-- Variable.exportName: the rename if set and truthy, else the name. -/
def varExportName (v : MVar) : List Char :=
  match v.newName with
  | some t => if t = [] then v.name else t
  | none => v.name

/-- Variable.declaration. -/
def varDeclaration (v : MVar) : List Char :=
  match v.type with
  | some t => if t = [] then varExportName v else varExportName v ++ " As ".data ++ t
  | none => varExportName v

/-- Parameter.declaration. -/
def paramDeclaration (p : MParam) : List Char :=
  match p.ptype with
  | PType.Plain => varDeclaration p.var
  | PType.Typed => varDeclaration p.var
  | PType.ByRef => "ByRef ".data ++ varExportName p.var
  | PType.ByVal => "ByVal ".data ++ varExportName p.var

/-- Method.exportName getter. -/
def methodExportName (m : MMethod) : List Char :=
  match m.newName with
  | some t => if t = [] then m.name else t
  | none => m.name

/-- Method.signature: join with spaces the non None entries among the
modifier, the kind, the export name with the rendered parameter list, and
the return type clause (present only when the return type is truthy). -/
def signature (m : MMethod) : List Char :=
  let params := List.intercalate ", ".data (m.parameters.map paramDeclaration)
  let pieces : List (Option (List Char)) :=
    [m.modifier,
     some m.mtype,
     some (methodExportName m ++ "(".data ++ params ++ ")".data),
     match m.returnType with
     | some rt => if rt = [] then none else some ("As ".data ++ rt)
     | none => none]
  List.intercalate " ".data (pieces.filterMap id)

/-- The File dataclass of model.py: the methods and the line store.  The
lines are kept in link order, so Method.codeLines (a walk of the linked
store filtered on the method back reference) is the in order filter of
this list. -/
structure MFile where
  methods : List MMethod
  lines : List CodeLineM
deriving DecidableEq

/-- The positions of the lines owned by method mi, in store order: the
index form of Method.codeLines. -/
def codeLineIdxs (lines : List CodeLineM) (mi : Nat) : List Nat :=
  (List.range lines.length).filter (fun j => (lines.getD j default).method = some mi)

/-- The Python slice xs[1:-1]: everything but the first and last element. -/
def interior (idxs : List Nat) : List Nat := (idxs.drop 1).dropLast

/-- Apply a per line update to the lines at the selected positions,
leaving every other line untouched: the store passing form of iterating
over a list of CodeLine objects and mutating them. -/
def applySel (sel : List Nat) (g : CodeLineM → CodeLineM) (lines : List CodeLineM) :
    List CodeLineM :=
  mapWithIdx (fun j l => if j ∈ sel then g l else l) 0 lines

/-- The body of replaceIdentifier of model.py for one line: run the
RE_IDENTIFIER_USE subn pass on the effective text and store the result as
the override only when at least one substitution happened. -/
def applyIdent (old new : List Char) (l : CodeLineM) : CodeLineM :=
  let r := identSubn old new (exportLine l)
  if r.2 > 0 then { l with newLine := some r.1 } else l

/-- replaceIdentifier of model.py, over the lines at the selected
positions of the store. -/
def replaceIdentifier (old new : List Char) (sel : List Nat)
    (lines : List CodeLineM) : List CodeLineM :=
  applySel sel (applyIdent old new) lines

/-- Method.renameVariable of model.py: record the new name on the
variable, then substitute the old identifier for the new one on the
method's own code lines excluding the first and the last. -/
def renameVariable (f : MFile) (mi vi : Nat) (name : List Char) : MFile :=
  let m := f.methods.getD mi default
  let v := m.vars.getD vi default
  let m' := { m with vars := m.vars.set vi { v with newName := some name } }
  { methods := f.methods.set mi m',
    lines := replaceIdentifier v.name name (interior (codeLineIdxs f.lines mi)) f.lines }

/-- Method.renameParameter of model.py: identical to renameVariable, on
the wrapped variable of the parameter at index pi. -/
def renameParameter (f : MFile) (mi pi : Nat) (name : List Char) : MFile :=
  let m := f.methods.getD mi default
  let p := m.parameters.getD pi default
  let m' := { m with parameters :=
      m.parameters.set pi { p with var := { p.var with newName := some name } } }
  { methods := f.methods.set mi m',
    lines := replaceIdentifier p.var.name name (interior (codeLineIdxs f.lines mi)) f.lines }

/-- One line of the method calls pass of File.renameMethod: the
RE_METHOD_CALLS subn pass, stored only when a substitution happened. -/
def applyCalls (old new : List Char) (l : CodeLineM) : CodeLineM :=
  let r := methodCallsSub old new (exportLine l)
  if r.2 > 0 then { l with newLine := some r.1 } else l

/-- One line of the references pass of File.renameMethod: the
RE_METHOD_REF subn pass, stored only when a substitution happened. -/
def applyRefs (old new : List Char) (l : CodeLineM) : CodeLineM :=
  let r := methodRefSub old new (exportLine l)
  if r.2 > 0 then { l with newLine := some r.1 } else l

/-- File.renameMethod of model.py.  First the exportName setter: the new
name is recorded and the first line owned by the method gets the freshly
rendered signature as its override (none is returned when the method owns
no line, where the source would raise StopIteration).  Then the calls
pass visits, method by method, every method's own lines excluding the
first and last, and rewrites call form occurrences of the old name; then
the references pass does the same for bare reference occurrences.  Lines
owned by no method are visited by neither pass. -/
def renameMethod (f : MFile) (mi : Nat) (name : List Char) : Option MFile :=
  let m := f.methods.getD mi default
  let m' := { m with newName := some name }
  let methods := f.methods.set mi m'
  match (codeLineIdxs f.lines mi).head? with
  | none => none
  | some j0 =>
    let lines0 := f.lines.set j0 { f.lines.getD j0 default with newLine := some (signature m') }
    let lines1 := (List.range methods.length).foldl (fun ls k =>
      applySel (interior (codeLineIdxs ls k)) (applyCalls m.name name) ls) lines0
    let lines2 := (List.range methods.length).foldl (fun ls k =>
      applySel (interior (codeLineIdxs ls k)) (applyRefs m.name name) ls) lines1
    some { methods := methods, lines := lines2 }

/-! ## The doubly linked line store of model.py

CodeLine.prev and CodeLine.next are properties whose setters unlink the
old neighbour and relink the new one, recursively triggering each other.
The heap is a list of nodes addressed by position; the fuel bounds the
setter recursion and is always supplied large enough that it is never
exhausted on the concrete runs proved about. -/

/-- A node of the linked store: a code line plus its prev and next links
(line positions in the heap, or none). -/
structure LinkNode where
  data : CodeLineM
  prev : Option Nat := none
  next : Option Nat := none
deriving DecidableEq, Inhabited

def getN (h : List LinkNode) (i : Nat) : LinkNode := h.getD i default

/-- The next and prev property setters of CodeLine, folded into one
function (the two setters are mirror images and recursively trigger each
other): no op when the value is already the current link; otherwise store
the new link, clear the corresponding back link of the old neighbour, and
point the new neighbour's back link here.  The fuel bounds the recursion
and is never exhausted on the runs proved about. -/
def setLink : Nat → Bool → List LinkNode → Nat → Option Nat → List LinkNode
  | 0, _, h, _, _ => h
  | fuel + 1, isNext, h, i, v =>
    let cur := if isNext then (getN h i).next else (getN h i).prev
    if v = cur then h
    else
      let h1 := h.set i
        (if isNext then { getN h i with next := v } else { getN h i with prev := v })
      let h2 := match cur with
        | some o => setLink fuel (!isNext) h1 o none
        | none => h1
      match v with
      | some j => setLink fuel (!isNext) h2 j (some i)
      | none => h2

/-- The next property setter of CodeLine. -/
def setNext (fuel : Nat) (h : List LinkNode) (i : Nat) (v : Option Nat) :
    List LinkNode :=
  setLink fuel true h i v

/-- The prev property setter of CodeLine. -/
def setPrev (fuel : Nat) (h : List LinkNode) (i : Nat) (v : Option Nat) :
    List LinkNode :=
  setLink fuel false h i v

/-- CodeLine.insertAfter of model.py.  The guard of the method lookup
compares the next builtin function against None, which is always false to
fail, so the condition is always true and the successor's method is read
unconditionally; a missing successor would raise AttributeError, modelled
as none.  Then each new line is chained behind the previous one, gets the
inherited method, and the original successor is linked after the last new
line. -/
def insertAfter (fuel : Nat) (h : List LinkNode) (i : Nat) (newLines : List Nat) :
    Option (List LinkNode) :=
  match (getN h i).next with
  | none => none
  | some t =>
    let meth := (getN h t).data.method
    let fin := newLines.foldl (fun acc l =>
      let h1 := setNext fuel acc.1 acc.2 (some l)
      let h2 := h1.set l { getN h1 l with data := { (getN h1 l).data with method := meth } }
      (h2, l)) (h, i)
    some (setNext fuel fin.1 fin.2 (some t))

/-- CodeLine.insertBefore of model.py, symmetric to insertAfter: the
method is inherited from the predecessor (read unconditionally for the
same reason), each new line is chained in front of the previous one
through the prev setter, and the original predecessor is linked before
the last new line. -/
def insertBefore (fuel : Nat) (h : List LinkNode) (i : Nat) (newLines : List Nat) :
    Option (List LinkNode) :=
  match (getN h i).prev with
  | none => none
  | some t =>
    let meth := (getN h t).data.method
    let fin := newLines.foldl (fun acc l =>
      let h1 := setPrev fuel acc.1 acc.2 (some l)
      let h2 := h1.set l { getN h1 l with data := { (getN h1 l).data with method := meth } }
      (h2, l)) (h, i)
    some (setPrev fuel fin.1 fin.2 (some t))

/-- CodeLine.replaceWith of model.py: delegate to insertBefore on the
successor when there is one, else to insertAfter on the predecessor, and
fail with the structural error when the line has no neighbour at all. -/
def replaceWith (fuel : Nat) (h : List LinkNode) (i : Nat) (newLines : List Nat) :
    Option (List LinkNode) :=
  match (getN h i).next with
  | some _ => insertBefore fuel h ((getN h i).next.getD 0) newLines
  | none =>
    match (getN h i).prev with
    | some _ => insertAfter fuel h ((getN h i).prev.getD 0) newLines
    | none => none

/-- Forward traversal of the linked store from a starting node, as
File.dump walks it: the list of visited node positions. -/
def walkNext : Nat → List LinkNode → Option Nat → List Nat
  | 0, _, _ => []
  | _ + 1, _, none => []
  | fuel + 1, h, some i => i :: walkNext fuel h (getN h i).next

/-! ## Helper lemmas -/

theorem pyTake_nonneg (s : List Char) (i : Int) (h : 0 ≤ i) :
    pyTake s i = s.take i.toNat := by
  unfold pyTake pyIdx
  rw [if_neg (by omega)]
  rcases Nat.le_total i.toNat s.length with hle | hle
  · rw [Nat.min_eq_left hle]
  · rw [Nat.min_eq_right hle, List.take_length, List.take_of_length_le hle]

theorem pyDrop_nonneg (s : List Char) (i : Int) (h : 0 ≤ i) :
    pyDrop s i = s.drop i.toNat := by
  unfold pyDrop pyIdx
  rw [if_neg (by omega)]
  rcases Nat.le_total i.toNat s.length with hle | hle
  · rw [Nat.min_eq_left hle]
  · rw [Nat.min_eq_right hle, List.drop_length, List.drop_eq_nil_of_le hle]

theorem mem_codeLineIdxs (lines : List CodeLineM) (mi j : Nat) :
    j ∈ codeLineIdxs lines mi ↔
      j < lines.length ∧ (lines.getD j default).method = some mi := by
  simp [codeLineIdxs, List.mem_filter, List.mem_range]

theorem interior_subset {idxs : List Nat} {j : Nat} (h : j ∈ interior idxs) :
    j ∈ idxs := by
  unfold interior at h
  exact List.drop_subset 1 idxs (List.dropLast_subset _ h)

theorem head?_mem {α : Type} {l : List α} {a : α} (h : l.head? = some a) : a ∈ l := by
  cases l with
  | nil => simp at h
  | cons b bs => simp at h; simp [h]

theorem applySel_length (sel : List Nat) (g : CodeLineM → CodeLineM)
    (lines : List CodeLineM) : (applySel sel g lines).length = lines.length :=
  mapWithIdx_length _ _ _

theorem applySel_getD_notMem (sel : List Nat) (g : CodeLineM → CodeLineM)
    (lines : List CodeLineM) (j : Nat) (hj : j < lines.length) (hns : j ∉ sel) :
    (applySel sel g lines).getD j default = lines.getD j default := by
  unfold applySel
  rw [mapWithIdx_getD, if_pos hj]
  simp [hns]

/-- The per method substitution passes of renameMethod leave every line
owned by no method untouched: such a line is never among the interior
lines of any method. -/
theorem pass_frame (gf : CodeLineM → CodeLineM) (ks : List Nat)
    (lines : List CodeLineM) (j : Nat) (hj : j < lines.length)
    (hm : (lines.getD j default).method = none) :
    (ks.foldl (fun ls k => applySel (interior (codeLineIdxs ls k)) gf ls) lines).getD
        j default = lines.getD j default ∧
    (ks.foldl (fun ls k => applySel (interior (codeLineIdxs ls k)) gf ls)
        lines).length = lines.length := by
  induction ks generalizing lines with
  | nil => exact ⟨rfl, rfl⟩
  | cons k ks ih =>
    have hstep : (applySel (interior (codeLineIdxs lines k)) gf lines).getD j default =
        lines.getD j default := by
      refine applySel_getD_notMem _ _ _ _ hj (fun hmem => ?_)
      have := (mem_codeLineIdxs lines k j).mp (interior_subset hmem)
      rw [hm] at this
      exact Option.noConfusion this.2
    have hlen : (applySel (interior (codeLineIdxs lines k)) gf lines).length =
        lines.length := applySel_length _ _ _
    have hih := ih (applySel (interior (codeLineIdxs lines k)) gf lines)
      (by rw [hlen]; exact hj) (by rw [hstep]; exact hm)
    refine ⟨?_, ?_⟩
    · rw [List.foldl_cons, hih.1, hstep]
    · rw [List.foldl_cons, hih.2, hlen]

/-! ## Concrete programs used by the scenario claims -/

/-- The method Foo of the renaming scenario. -/
def fooMethod : MMethod := { name := "Foo".data, mtype := "Function".data }

/-- The scenario file of the method rename claim: method Foo with a call
form line, a bare reference line and a line mentioning MyFoo. -/
def scenarioFile : MFile :=
  { methods := [fooMethod],
    lines := [mkCodeLine "Function Foo()".data 1 (some 0) CodeLineType.MethodStart,
              mkCodeLine "Result = Foo(1,2)".data 2 (some 0),
              mkCodeLine "Foo = 5".data 3 (some 0),
              mkCodeLine "x = MyFoo(1)".data 4 (some 0),
              mkCodeLine "End Function".data 5 (some 0) CodeLineType.MethodEnd] }

/-- A file whose first line lies outside every method and contains a call
form occurrence of Foo. -/
def outsideFile : MFile :=
  { methods := [fooMethod],
    lines := [mkCodeLine " Foo(1)".data 1 none,
              mkCodeLine "Function Foo()".data 2 (some 0) CodeLineType.MethodStart,
              mkCodeLine "y = Foo(2)".data 3 (some 0),
              mkCodeLine "End Function".data 4 (some 0) CodeLineType.MethodEnd] }

/-- The method Bar with one local variable cnt and one parameter arg. -/
def barMethod : MMethod :=
  { name := "Bar".data, mtype := "Sub".data,
    parameters := [{ var := { name := "arg".data }, ptype := PType.Plain }],
    vars := [{ name := "cnt".data }] }

/-- The file of the variable rename frame claim: a line outside the
method, the signature line, two interior lines and the terminator line,
each mentioning the renamed identifiers. -/
def varFile : MFile :=
  { methods := [barMethod],
    lines := [mkCodeLine "x = cnt + arg".data 1 none,
              mkCodeLine "Sub Bar(arg)".data 2 (some 0) CodeLineType.MethodStart,
              mkCodeLine "Dim cnt As Integer".data 3 (some 0),
              mkCodeLine "y = cnt + arg".data 4 (some 0),
              mkCodeLine "End Sub".data 5 (some 0) CodeLineType.MethodEnd] }

/-! ## The claims -/

/-- C10: setting a line override to the empty string makes the effective
text revert to the original: exportLine returns the original line whenever
the override is none or empty, so an empty override behaves exactly as if
no override had been set and, as long as the original is nonempty, an
override can never render the line as empty. -/
theorem claim_C10 (line t : List Char) (number : Int) (method : Option Nat)
    (lt : CodeLineType) (strs : List StrLit) :
    exportLine { line := line, number := number, method := method, lineType := lt,
                 newLine := some t, strings := strs } = (if t = [] then line else t) ∧
    exportLine { line := line, number := number, method := method, lineType := lt,
                 newLine := none, strings := strs } = line ∧
    exportLine { line := line, number := number, method := method, lineType := lt,
                 newLine := some [], strings := strs } =
      exportLine { line := line, number := number, method := method, lineType := lt,
                   newLine := none, strings := strs } := by
  refine ⟨rfl, rfl, ?_⟩
  simp [exportLine]

/-- C6: splitting the 20 character literal ABCDEFGHIJKLMNOPQRST with chunk
size 8 yields exactly the three chunks of lengths 8, 8 and 4, the rendered
replacement joins the requoted chunks with the concatenation operator, the
chunks concatenate back to the original inner value, and running the
splitter on a line holding that literal rewrites it accordingly. -/
theorem claim_C6 :
    chunkstring "ABCDEFGHIJKLMNOPQRST".data 8 =
      ["ABCDEFGH".data, "IJKLMNOP".data, "QRST".data] ∧
    (chunkstring "ABCDEFGHIJKLMNOPQRST".data 8).map List.length = [8, 8, 4] ∧
    List.intercalate (' ' :: '&' :: [' '])
        ((chunkstring "ABCDEFGHIJKLMNOPQRST".data 8).map (fun c => '"' :: c ++ ['"'])) =
      "\"ABCDEFGH\" & \"IJKLMNOP\" & \"QRST\"".data ∧
    (chunkstring "ABCDEFGHIJKLMNOPQRST".data 8).flatten = "ABCDEFGHIJKLMNOPQRST".data ∧
    exportLine (StringSplitter.process (mkCodeLine "x = \"ABCDEFGHIJKLMNOPQRST\"".data) 0) =
      "x = \"ABCDEFGH\" & \"IJKLMNOP\" & \"QRST\"".data := by
  refine ⟨by decide, by decide, by decide, by decide, by decide⟩

/-- C5 counterexample: the literal with inner value ABCDEFG has 7 inner
characters, at most 8, yet StringSplitter.process does replace it (the
threshold test counts the two quote characters), so the line state is not
left unchanged: the literal's newString is set and the line acquires an
override. -/
theorem claim_C5_cex :
    ((mkCodeLine "x = \"ABCDEFG\"".data).strings.getD 0 default).value.length = 7 + 2 ∧
    StringSplitter.process (mkCodeLine "x = \"ABCDEFG\"".data) 0 ≠
      mkCodeLine "x = \"ABCDEFG\"".data ∧
    ((StringSplitter.process (mkCodeLine "x = \"ABCDEFG\"".data) 0).strings.getD 0
        default).newString = some "\"ABCDEFG\"".data := by
  refine ⟨by decide, by decide, by decide⟩

/-- C5 as amended: StringSplitter.process replaces the literal if and only
if its tracked value, the two quote characters included, is longer than 8,
that is if and only if the inner value exceeds 6 characters; a literal
with inner value of at most 6 characters is left completely unchanged,
and one with a longer inner value is rewritten through replaceString with
the requoted chunks of width 8 joined by the concatenation operator (for
inner lengths 7 and 8 that replacement is a single chunk identical to the
original text). -/
theorem claim_C5 (l : CodeLineM) (i : Nat) (inner : List Char)
    (hv : (l.strings.getD i default).value = '"' :: inner ++ ['"']) :
    (inner.length ≤ 6 → StringSplitter.process l i = l) ∧
    (6 < inner.length →
      StringSplitter.process l i =
        replaceString l i
          (List.intercalate (' ' :: '&' :: [' '])
            ((chunkstring inner 8).map (fun c => '"' :: c ++ ['"'])))) := by
  have hlen : (l.strings.getD i default).value.length = inner.length + 2 := by
    rw [hv]; simp
  have hinner : (((l.strings.getD i default).value.drop 1).dropLast) = inner := by
    rw [hv]
    simp [List.dropLast_concat]
  constructor
  · intro hle
    unfold StringSplitter.process
    rw [if_neg (by omega)]
  · intro hgt
    unfold StringSplitter.process
    rw [if_pos (by omega), hinner]

/-- C5 witness: the amended theorem applied to a concrete line holding a
literal with a 9 character inner value. -/
theorem claim_C5_witness :
    ((mkCodeLine "z = \"ABCDEFGHI\"".data).strings.getD 0 default).value =
      '"' :: "ABCDEFGHI".data ++ ['"'] ∧
    StringSplitter.process (mkCodeLine "z = \"ABCDEFGHI\"".data) 0 =
      replaceString (mkCodeLine "z = \"ABCDEFGHI\"".data) 0
        (List.intercalate (' ' :: '&' :: [' '])
          ((chunkstring "ABCDEFGHI".data 8).map (fun c => '"' :: c ++ ['"']))) := by
  refine ⟨by decide, ?_⟩
  exact (claim_C5 (mkCodeLine "z = \"ABCDEFGHI\"".data) 0 "ABCDEFGHI".data (by decide)).2
    (by decide)

/-- C1: the identifier substitution does not perform an exact boundary
match.  The pattern class of RE_IDENTIFIER_USE matches every non digit,
letters included, and the leading boundary character is mandatory, so an
occurrence of foo inside the longer identifier myfoo is rewritten (the
preceding y, a letter, is accepted as boundary), while a line starting
with the bare identifier foo is not rewritten at all (there is no
preceding character to consume); the third conjunct runs the same pass at
the line level as replaceIdentifier does. -/
theorem claim_C1 :
    identSubn "foo".data "bar".data "(myfoo)".data = ("(mybar)".data, 1) ∧
    identSubn "foo".data "bar".data "foo = 1".data = ("foo = 1".data, 0) ∧
    (applyIdent "foo".data "bar".data (mkCodeLine "(myfoo)".data)).newLine =
      some "(mybar)".data := by
  refine ⟨by decide, by decide, by decide⟩

/-- C2: the name generator does not guarantee uniqueness.  Its membership
test looks the candidate string up among the keys of the NAMES dict, which
are (length, alphabet) tuples, so it never rejects a draw: from an empty
pool, two consecutive calls for the key (2, ab) whose draws are both aa
each succeed and both return aa, and the state reached after any number of
such duplicate calls keeps accepting further calls (so a fifth call does
not fail with the capacity error). -/
theorem claim_C2 :
    ((randomName 2 "ab".data ⟨[]⟩ ["aa".data]).map (fun r => r.1) = some "aa".data) ∧
    (((randomName 2 "ab".data ⟨[]⟩ ["aa".data]).bind (fun r =>
        randomName 2 "ab".data r.2 ["aa".data])).map (fun r => r.1) =
      some "aa".data) ∧
    (randomName 2 "ab".data ⟨[(PyKey.tupK 2 "ab".data, ["aa".data])]⟩ ["aa".data] =
      some ("aa".data, ⟨[(PyKey.tupK 2 "ab".data, ["aa".data])]⟩)) := by
  refine ⟨by decide, by decide, by decide⟩

/-- C4: replaceString substitutes exactly the tracked span of the literal
with the replacement text (the new effective text is the old one with the
half open span replaced), updates the literal's own end offset to its
start plus the replacement length and records the replacement, shifts both
offsets of every other literal whose startIdx exceeds the replaced
literal's original endIdx by the signed length delta, and leaves every
other literal with startIdx not beyond that end untouched.  The span
validity hypotheses mirror the claim's premise that the tracked literals
have valid spans against the current effective text. -/
theorem claim_C4 (l : CodeLineM) (i : Nat) (repl : List Char)
    (hi : i < l.strings.length)
    (hnew : (l.strings.getD i default).newString = none)
    (h0 : 0 ≤ (l.strings.getD i default).startIdx)
    (h1 : (l.strings.getD i default).startIdx ≤ (l.strings.getD i default).endIdx)
    (h2 : (l.strings.getD i default).endIdx ≤ ((exportLine l).length : Int)) :
    ((replaceString l i repl).newLine =
      some ((exportLine l).take (l.strings.getD i default).startIdx.toNat ++ repl ++
            (exportLine l).drop (l.strings.getD i default).endIdx.toNat)) ∧
    ((replaceString l i repl).strings.getD i default =
      { l.strings.getD i default with
          endIdx := (l.strings.getD i default).startIdx + (repl.length : Int),
          newString := some repl }) ∧
    (∀ j, j < l.strings.length → j ≠ i →
      (replaceString l i repl).strings.getD j default =
        (if (l.strings.getD j default).startIdx > (l.strings.getD i default).endIdx then
          { l.strings.getD j default with
              startIdx := (l.strings.getD j default).startIdx +
                ((repl.length : Int) - ((l.strings.getD i default).value.length : Int)),
              endIdx := (l.strings.getD j default).endIdx +
                ((repl.length : Int) - ((l.strings.getD i default).value.length : Int)) }
         else l.strings.getD j default)) := by
  refine ⟨?_, ?_, ?_⟩
  · show some (pyTake (exportLine l) (l.strings.getD i default).startIdx ++ repl ++
        pyDrop (exportLine l) (l.strings.getD i default).endIdx) = _
    rw [pyTake_nonneg _ _ h0, pyDrop_nonneg _ _ (le_trans h0 h1)]
  · show (mapWithIdx _ 0 l.strings).getD i default = _
    rw [mapWithIdx_getD, if_pos hi]
    dsimp only
    rw [Nat.zero_add, if_pos rfl, if_neg (by omega :
      ¬ (l.strings.getD i default).startIdx > (l.strings.getD i default).endIdx)]
  · intro j hj hne
    show (mapWithIdx _ 0 l.strings).getD j default = _
    rw [mapWithIdx_getD, if_pos hj]
    dsimp only
    rw [Nat.zero_add, if_neg hne]

/-- C4 witness: the theorem applied to the concrete line of the claim,
holding the literals AAAA at span zero to six and B at span ten to
thirteen, replaced with the quoted CC; the second literal's span becomes
eight to eleven and the new text still reads the quoted B there. -/
theorem claim_C4_witness :
    (0 < (mkCodeLine "\"AAAA\" xx \"B\"".data).strings.length ∧
     ((mkCodeLine "\"AAAA\" xx \"B\"".data).strings.getD 0 default).startIdx = 0 ∧
     ((mkCodeLine "\"AAAA\" xx \"B\"".data).strings.getD 0 default).endIdx = 6 ∧
     ((mkCodeLine "\"AAAA\" xx \"B\"".data).strings.getD 1 default).startIdx = 10 ∧
     ((mkCodeLine "\"AAAA\" xx \"B\"".data).strings.getD 1 default).endIdx = 13) ∧
    ((replaceString (mkCodeLine "\"AAAA\" xx \"B\"".data) 0 "\"CC\"".data).strings.getD
        1 default).startIdx = 8 ∧
    ((replaceString (mkCodeLine "\"AAAA\" xx \"B\"".data) 0 "\"CC\"".data).strings.getD
        1 default).endIdx = 11 ∧
    (((exportLine (replaceString (mkCodeLine "\"AAAA\" xx \"B\"".data) 0
        "\"CC\"".data)).drop 8).take 3 = "\"B\"".data) := by
  have h := claim_C4 (mkCodeLine "\"AAAA\" xx \"B\"".data) 0 "\"CC\"".data
    (by decide) (by decide) (by decide) (by decide) (by decide)
  have h1 := h.2.2 1 (by decide) (by decide)
  refine ⟨⟨by decide, by decide, by decide, by decide, by decide⟩, ?_, ?_, by decide⟩
  · rw [h1]; decide
  · rw [h1]; decide

/-- C7: parsing the variable list of Dim a, b As Integer yields two
Variables a and b, both typed Integer (a single declared type propagates
to every name of the statement); parsing the list of Dim a As Integer, b
As String fails; and in general parseVariables fails exactly when the
variables of one statement carry more than one distinct declared type, so
a last type wins rule is never applied silently. -/
theorem claim_C7 :
    (parseVariables "a, b As Integer".data =
      some [{ name := "a".data, type := some "Integer".data, newName := none },
            { name := "b".data, type := some "Integer".data, newName := none }]) ∧
    (parseVariables "a As Integer, b As String".data = none) ∧
    (∀ s : List Char, parseVariables s = none ↔
      1 < (((findVarsAux (s.length + 1) s).filterMap (fun v => v.type)).dedup).length) := by
  refine ⟨by decide, by decide, fun s => ?_⟩
  simp only [parseVariables]
  split
  · rename_i hgt
    exact ⟨fun _ => hgt, fun _ => rfl⟩
  · rename_i hle
    split
    · simpa using hle
    · simpa using hle

/-- C3 counterexample: in a file whose first line lies outside every
method and contains the call form occurrence of Foo (the middle conjunct
shows the call pattern does match and rewrite that text), renaming Foo to
Zzz leaves that line untouched, so the rewrite is not applied to every
line of the file as the claim states. -/
theorem claim_C3_cex :
    ((renameMethod outsideFile 0 "Zzz".data).map (fun f =>
        f.lines.map exportLine) =
      some [" Foo(1)".data, "Function Zzz()".data, "y = Zzz(2)".data,
            "End Function".data]) ∧
    methodCallsSub "Foo".data "Zzz".data " Foo(1)".data = (" Zzz(1)".data, 1) ∧
    " Foo(1)".data ≠ " Zzz(1)".data := by
  refine ⟨by decide, by decide, by decide⟩

/-- Frame lemma for renameMethod: a line owned by no method keeps its
state unchanged by the rename, since the signature rewrite targets a line
owned by the renamed method and the two substitution passes visit only
interior lines of methods. -/
theorem renameMethod_frame (f : MFile) (mi : Nat) (name : List Char) (j : Nat)
    (hj : j < f.lines.length) (hm : (f.lines.getD j default).method = none) :
    (renameMethod f mi name).map (fun f' => f'.lines.getD j default) =
      (renameMethod f mi name).map (fun _ => f.lines.getD j default) := by
  cases hh : (codeLineIdxs f.lines mi).head? with
  | none =>
    simp only [renameMethod, hh]
    rfl
  | some j0 =>
    simp only [renameMethod, hh, Option.map_some']
    have hj0 : (f.lines.getD j0 default).method = some mi :=
      ((mem_codeLineIdxs f.lines mi j0).mp (head?_mem hh)).2
    have hne : j0 ≠ j := by
      intro he
      rw [he, hm] at hj0
      exact Option.noConfusion hj0
    set M : MMethod := { f.methods.getD mi default with newName := some name } with hM
    set L0 : List CodeLineM := f.lines.set j0
      { f.lines.getD j0 default with newLine := some (signature M) } with hL0
    have hset : L0.getD j default = f.lines.getD j default := by
      rw [hL0, List.getD_eq_getElem?_getD, List.getElem?_set_ne hne,
        ← List.getD_eq_getElem?_getD]
    have hlen0 : L0.length = f.lines.length := List.length_set _ _ _
    set KS : List Nat := List.range (f.methods.set mi M).length with hKS
    set L1 : List CodeLineM := KS.foldl (fun ls k =>
      applySel (interior (codeLineIdxs ls k))
        (applyCalls (f.methods.getD mi default).name name) ls) L0 with hL1
    have hp1 := pass_frame (applyCalls (f.methods.getD mi default).name name)
      KS L0 j (by rw [hlen0]; exact hj) (by rw [hset]; exact hm)
    rw [← hL1] at hp1
    have hp2 := pass_frame (applyRefs (f.methods.getD mi default).name name)
      KS L1 j (by rw [hp1.2, hlen0]; exact hj) (by rw [hp1.1, hset]; exact hm)
    congr 1
    rw [hp2.1, hp1.1, hset]

/-- C3 as amended: File.renameMethod applies its two substitution passes
to the interior lines of every method, not to every line of the file.  On
the scenario file the call form line and the bare reference line inside
the body of Foo are rewritten to use Zzz, the signature line is re
rendered from structured data, and the line mentioning MyFoo is left
unchanged; in general a line owned by no method keeps its state unchanged
by the rename. -/
theorem claim_C3 :
    ((renameMethod scenarioFile 0 "Zzz".data).map (fun f =>
        f.lines.map exportLine) =
      some ["Function Zzz()".data, "Result = Zzz(1,2)".data, "Zzz = 5".data,
            "x = MyFoo(1)".data, "End Function".data]) ∧
    (∀ (f : MFile) (mi : Nat) (name : List Char) (j : Nat),
      j < f.lines.length → (f.lines.getD j default).method = none →
      (renameMethod f mi name).map (fun f' => f'.lines.getD j default) =
        (renameMethod f mi name).map (fun _ => f.lines.getD j default)) :=
  ⟨by decide, fun f mi name j hj hm => renameMethod_frame f mi name j hj hm⟩

/-- C3 witness: the amended theorem applied to the concrete file whose
first line lies outside every method: that line is unchanged by the
rename. -/
theorem claim_C3_witness :
    (0 < outsideFile.lines.length ∧
     (outsideFile.lines.getD 0 default).method = none) ∧
    ((renameMethod outsideFile 0 "Zzz".data).map (fun f' =>
        f'.lines.getD 0 default) =
      (renameMethod outsideFile 0 "Zzz".data).map (fun _ =>
        outsideFile.lines.getD 0 default)) :=
  ⟨⟨by decide, by decide⟩,
   claim_C3.2 outsideFile 0 "Zzz".data 0 (by decide) (by decide)⟩

/-- C9: renameVariable and renameParameter substitute only on the interior
lines of their own method, the method's owned lines excluding the first
and the last: every line at any other position of the store, in
particular the signature line, the terminator line, and every line owned
by another method or by no method, is left entirely unchanged. -/
theorem claim_C9 (f : MFile) (mi vi pi : Nat) (name : List Char) (j : Nat)
    (hj : j < f.lines.length)
    (hsel : j ∉ interior (codeLineIdxs f.lines mi)) :
    (renameVariable f mi vi name).lines.getD j default = f.lines.getD j default ∧
    (renameParameter f mi pi name).lines.getD j default = f.lines.getD j default := by
  constructor
  · exact applySel_getD_notMem _ _ _ _ hj hsel
  · exact applySel_getD_notMem _ _ _ _ hj hsel

/-- C9 witness: in the concrete file of the method Bar, the outside line,
the signature line and the terminator line (positions zero, one and four,
none of them interior to Bar) are unchanged by renaming the variable cnt
and the parameter arg. -/
theorem claim_C9_witness :
    (1 < varFile.lines.length ∧ 1 ∉ interior (codeLineIdxs varFile.lines 0)) ∧
    (renameVariable varFile 0 0 "qq".data).lines.getD 1 default =
      varFile.lines.getD 1 default ∧
    (renameParameter varFile 0 0 "pp".data).lines.getD 1 default =
      varFile.lines.getD 1 default := by
  refine ⟨⟨by decide, by decide⟩, ?_, ?_⟩
  · exact (claim_C9 varFile 0 0 0 "qq".data 1 (by decide) (by decide)).1
  · exact (claim_C9 varFile 0 0 0 "pp".data 1 (by decide) (by decide)).2

/-! ## Concrete linked stores for the replaceWith claim -/

/-- A three line chain with the middle line L owned by method seven, plus
two fresh unlinked lines at positions three and four. -/
def chainHeap : List LinkNode :=
  [{ data := mkCodeLine "A".data, next := some 1 },
   { data := mkCodeLine "L".data (-1) (some 7), prev := some 0, next := some 2 },
   { data := mkCodeLine "B".data, prev := some 1 },
   { data := mkCodeLine "n1".data },
   { data := mkCodeLine "n2".data }]

/-- A two line chain whose tail L is owned by method seven, plus two fresh
unlinked lines. -/
def tailHeap : List LinkNode :=
  [{ data := mkCodeLine "A".data, next := some 1 },
   { data := mkCodeLine "L".data (-1) (some 7), prev := some 0 },
   { data := mkCodeLine "n1".data },
   { data := mkCodeLine "n2".data }]

/-- A single isolated line. -/
def isoHeap : List LinkNode := [{ data := mkCodeLine "L".data }]

/-- C8: replaceWith does not displace the replaced line.  In the chain A,
L, B, replacing L with one new line yields the order A, L, n1, B: the new
line is inserted after L, which stays linked; with two new lines the order
is A, L, n2, n1, B, the new lines in reverse order.  When L is the tail,
the new lines are appended in order between A and L, which reappears at
the end.  The inserted lines do inherit the method of the displaced line,
and a line with no neighbour at all makes the call fail, as the claim
states. -/
theorem claim_C8 :
    ((replaceWith 100 chainHeap 1 [3]).map (fun h =>
        (walkNext 100 h (some 0), (getN h 3).data.method)) =
      some ([0, 1, 3, 2], some 7)) ∧
    ((replaceWith 100 chainHeap 1 [3, 4]).map (fun h => walkNext 100 h (some 0)) =
      some [0, 1, 4, 3, 2]) ∧
    ((replaceWith 100 tailHeap 1 [2, 3]).map (fun h =>
        (walkNext 100 h (some 0), (getN h 2).data.method)) =
      some ([0, 2, 3, 1], some 7)) ∧
    (replaceWith 100 isoHeap 0 [2] = none) := by
  refine ⟨by decide, by decide, by decide, by decide⟩

end VbaObf
